import Mathlib

/-!
Shallow embedding of `tsqueue.c` (thread safe single-producer, multi-consumer
FIFO queue) and proofs about its sequential behaviour.

The queue state is the C `struct tsqueue` with the mutex and condition
variables abstracted away: condition-variable signals have no effect on the
fields, and a call that enters a wait loop whose guard cannot be changed by
the caller itself is modelled as "blocks" (`none` / `PopResult.blocks`).
`size_t` arithmetic is `Nat` with wrap-around made explicit (`csub`).
-/

/-- Modulus of C `size_t` (64-bit target). -/
def SIZE_T_MOD : Nat := 2 ^ 64

/-- C `size_t` subtraction `a - b`: wraps modulo `2^64` (operands `< 2^64`). -/
def csub (a b : Nat) : Nat := (a + SIZE_T_MOD - b) % SIZE_T_MOD

/-- Constant `TSQUEUE_CLOSED` from tsqueue.h: `INT_MIN`. -/
def TSQUEUE_CLOSED : Int := -2147483648

/-- Constant `TSQUEUE_TOO_MANY` from tsqueue.h: `INT_MIN + 1`. -/
def TSQUEUE_TOO_MANY : Int := -2147483647

/-- Constant `TSQUEUE_SINGLE_PRODUCER` from tsqueue.h: `INT_MIN + 2`. -/
def TSQUEUE_SINGLE_PRODUCER : Int := -2147483646

/-- The fields of `struct tsqueue` (tsqueue.c lines 18-63), minus the mutex
and condition variables.  `data` is the caller-owned backing store, one list
entry per element slot (`elem_size` bytes each in C). -/
structure Tsqueue (α : Type) where
  capacity : Nat
  used : Nat
  elem_size : Nat
  data : List α
  producer_n_elems : Nat
  n_consumers_waiting : Nat
  producers_done : Bool
  die : Bool
deriving DecidableEq

/-- Model of `memcpy((char *)data + off * elem_size, xs, |xs| * elem_size)`: overwrite
the slots `off, off+1, ...` of `l` with the elements of `xs`. -/
def writeAt (l : List α) (off : Nat) (xs : List α) : List α :=
  l.take off ++ xs ++ l.drop (off + xs.length)

/-- Function `wait_for_space_internal` (tsqueue.c lines 311-342), sequential model.
`none`: the call enters the producer wait loop while nothing in this call can
make the guard false, i.e. the caller blocks.  `some (retval, q')`: the call
returns `retval` leaving state `q'`.  `producer_n_elems` is set to `n_elems`
before the loop and reset to `0` after it, so on every completed call its net
effect is nil and the returned state keeps the entry value. -/
def wait_for_space_internal (q : Tsqueue α) (n_elems : Nat) :
    Option (Int × Tsqueue α) :=
  let retval : Int := if n_elems > q.capacity then TSQUEUE_TOO_MANY else 0
  let retval : Int :=
    if q.producer_n_elems ≠ 0 then TSQUEUE_SINGLE_PRODUCER else retval
  if retval = 0 then
    if ¬q.die ∧ csub q.capacity q.used < n_elems then
      none
    else
      if q.die then some (TSQUEUE_CLOSED, q) else some (0, q)
  else
    if q.die then some (TSQUEUE_CLOSED, q) else some (retval, q)

/-- Function `tsqueue_wait_for_space` (tsqueue.c lines 208-214): lock, call the
internal helper, unlock. -/
def tsqueue_wait_for_space (q : Tsqueue α) (n_elems : Nat) :
    Option (Int × Tsqueue α) :=
  wait_for_space_internal q n_elems

/-- Function `tsqueue_put` (tsqueue.c lines 216-239): wait for space, then `memcpy`
the `n_elems` input elements at offset `used` and add `n_elems` to `used`.
The consumer wakeup signal has no effect on the fields. -/
def tsqueue_put (q : Tsqueue α) (n_elems : Nat) (inp : List α) :
    Option (Int × Tsqueue α) :=
  match wait_for_space_internal q n_elems with
  | none => none
  | some (retval, q1) =>
    if retval = 0 then
      some (0, { q1 with
                   data := writeAt q1.data q1.used (inp.take n_elems),
                   used := q1.used + n_elems })
    else
      some (retval, q1)

/-- Result of a `tsqueue_pop` call: either the caller blocks in the consumer
wait loop, or the call returns `retval`, writes back `n_elems` (the in/out
`*n_elems`), copies `out` into the caller's buffer and leaves state `q`. -/
inductive PopResult (α : Type) where
  | blocks : PopResult α
  | ret (retval : Int) (n_elems : Nat) (out : List α) (q : Tsqueue α) :
      PopResult α
deriving DecidableEq

/-- Function `tsqueue_pop` (tsqueue.c lines 241-296), sequential model.  The order of
checks follows the source: the `TooMany` test, then the consumer wait loop
(guard `!producers_done && !die && used < *n_elems`; `n_consumers_waiting`
is incremented before it and decremented after it, net nil on a completed
call), then the `die` test (which overrides any earlier `retval` with
`TSQUEUE_CLOSED` and zeroes `*n_elems`), then the success path: clamp
`*n_elems` to `used`, copy the first `*n_elems` slots out, `memmove` the
remaining `used` slots to the front (slots past the new `used` keep their old
contents), and signal waiters (no field effect). -/
def tsqueue_pop (q : Tsqueue α) (n_elems : Nat) : PopResult α :=
  let retval : Int := if n_elems > q.capacity then TSQUEUE_TOO_MANY else 0
  if retval = 0 ∧ (¬q.producers_done ∧ ¬q.die ∧ q.used < n_elems) then
    .blocks
  else if q.die then
    .ret TSQUEUE_CLOSED 0 [] q
  else if retval = 0 then
    let n := if q.used < n_elems then q.used else n_elems
    let u := q.used - n
    .ret 0 n (q.data.take n)
      { q with used := u, data := (q.data.drop n).take u ++ q.data.drop u }
  else
    .ret retval n_elems [] q

/-- Function `tsqueue_set_done` (tsqueue.c lines 298-309): store the flag and signal
all waiting consumers (no field effect from the signals). -/
def tsqueue_set_done (q : Tsqueue α) (done : Bool) : Tsqueue α :=
  { q with producers_done := done }

/-- Guard of the drain-wait loop in `tsqueue_close`, tsqueue.c line 176:
`queue->producer_n_elems != 0 && queue->n_consumers_waiting != 0`. -/
def close_wait_guard (q : Tsqueue α) : Bool :=
  decide (q.producer_n_elems ≠ 0) && decide (q.n_consumers_waiting ≠ 0)

/-- Function `tsqueue_close` (tsqueue.c lines 160-182), sequential model: set `die`,
signal the pending producer and all waiting consumers (no field effect), then
wait while `close_wait_guard` holds.  `none`: the caller blocks in the drain
loop; `some q'`: the call returns leaving state `q'`. -/
def tsqueue_close (q : Tsqueue α) : Option (Tsqueue α) :=
  let q1 := { q with die := true }
  if close_wait_guard q1 then none else some q1

/-- Function `tsqueue_destroy` (tsqueue.c lines 184-198): close, then report `used`
through the out-parameter.  The synchronization primitives are destroyed and
the state struct freed; the backing store is caller-owned and is not freed,
so the model returns it unchanged alongside the reported count. -/
def tsqueue_destroy (q : Tsqueue α) : Option (Nat × List α) :=
  match tsqueue_close q with
  | none => none
  | some q1 => some (q1.used, q1.data)

/-- Environment of one `tsqueue_create` call: whether `malloc` returns
non-NULL, the value of `errno` after a failed `malloc`, and the return codes
of `pthread_mutex_init` and the three `pthread_cond_init` calls. -/
structure CreateEnv where
  malloc_ok : Bool
  errno_val : Nat
  mutex_init : Int
  cond_producer_init : Int
  cond_consumer_init : Int
  cond_all_dead_init : Int
deriving DecidableEq

/-- Result of `tsqueue_create`.  `nullDeref`: line 97 writes `**queue`
through the NULL pointer that `malloc` returned.  `ret retval q inited
destroyed`: the call returns `retval` and (on success) the fresh state;
`inited` lists the synchronization primitives successfully initialized
(1 = mutex, 2 = producer_wakeup, 3 = consumer_wakeup, 4 = all_dead) and
`destroyed` those destroyed by the failure-cleanup `switch` before
returning. -/
inductive CreateResult (α : Type) where
  | nullDeref : CreateResult α
  | ret (retval : Int) (q : Option (Tsqueue α)) (inited destroyed : List Nat) :
      CreateResult α
deriving DecidableEq

/-- Function `tsqueue_create` (tsqueue.c lines 85-158).  `queue_param_null` is whether
the out-parameter `queue` itself is NULL: line 92 tests `queue == NULL`, not
`*queue == NULL`, and every caller passes the address of a local, so in every
call in this repository that test is false and `retval` stays `0` even when
`malloc` returned NULL — in which case line 97 dereferences the NULL
pointer.  On an init failure the `switch` on `steps_done` (lines 134-152)
falls through, destroying exactly the primitives already initialized, in
reverse order, then frees the state struct. -/
def tsqueue_create (α : Type) (env : CreateEnv) (queue_param_null : Bool)
    (data : List α) (capacity elem_size used : Nat) : CreateResult α :=
  let retval : Int := if queue_param_null then (env.errno_val : Int) else 0
  if retval = 0 ∧ env.malloc_ok = false then
    .nullDeref
  else if retval ≠ 0 then
    .ret retval none [] []
  else
    let q : Tsqueue α :=
      { capacity := capacity, used := used, elem_size := elem_size,
        data := data, producer_n_elems := 0, n_consumers_waiting := 0,
        producers_done := false, die := false }
    if env.mutex_init ≠ 0 then .ret env.mutex_init none [] []
    else if env.cond_producer_init ≠ 0 then
      .ret env.cond_producer_init none [1] [1]
    else if env.cond_consumer_init ≠ 0 then
      .ret env.cond_consumer_init none [1, 2] [2, 1]
    else if env.cond_all_dead_init ≠ 0 then
      .ret env.cond_all_dead_init none [1, 2, 3] [3, 2, 1]
    else .ret 0 (some q) [1, 2, 3, 4] []

/-- The valid region of the queue: the first `used` slots of the backing
store, in pop order. -/
def queueContents (q : Tsqueue α) : List α := q.data.take q.used

/-- One queue operation, for reasoning about operation sequences. -/
inductive Op (α : Type) where
  | put (n : Nat) (items : List α) : Op α
  | pop (n : Nat) : Op α
  | setDone (b : Bool) : Op α
  | close : Op α
  | waitForSpace (n : Nat) : Op α

/-- Apply one operation; `none` when the call blocks. -/
def tsqStep (q : Tsqueue α) : Op α → Option (Tsqueue α)
  | .put n items => (tsqueue_put q n items).map Prod.snd
  | .pop n =>
    match tsqueue_pop q n with
    | .blocks => none
    | .ret _ _ _ q1 => some q1
  | .setDone b => some (tsqueue_set_done q b)
  | .close => tsqueue_close q
  | .waitForSpace n => (wait_for_space_internal q n).map Prod.snd

/-- Apply a sequence of operations; `none` when any call blocks. -/
def runOps (q : Tsqueue α) : List (Op α) → Option (Tsqueue α)
  | [] => some q
  | op :: ops =>
    match tsqStep q op with
    | none => none
    | some q1 => runOps q1 ops

/-- A sequence of `tsqueue_put` calls, each required to return 0. -/
def runPuts (q : Tsqueue α) : List (List α) → Option (Tsqueue α)
  | [] => some q
  | b :: bs =>
    match tsqueue_put q b.length b with
    | none => none
    | some (r, q1) => if r = 0 then runPuts q1 bs else none

/-- A sequence of `tsqueue_pop` calls, each required to return 0, collecting
the popped batches. -/
def runPops (q : Tsqueue α) : List Nat → Option (List (List α) × Tsqueue α)
  | [] => some ([], q)
  | n :: ns =>
    match tsqueue_pop q n with
    | .blocks => none
    | .ret r _ out q1 =>
      if r = 0 then
        match runPops q1 ns with
        | none => none
        | some (outs, qf) => some (out :: outs, qf)
      else none

/-- The error an over-capacity request actually produces: tsqueue.c computes
`TSQUEUE_TOO_MANY`, then overrides it with `TSQUEUE_SINGLE_PRODUCER` when a
producer-side call is pending (line 320) and with `TSQUEUE_CLOSED` when the
queue is closing (line 335). -/
def overcap_error (q : Tsqueue α) : Int :=
  if q.die then TSQUEUE_CLOSED
  else if q.producer_n_elems ≠ 0 then TSQUEUE_SINGLE_PRODUCER
  else TSQUEUE_TOO_MANY

/-- Queue state for the close drain-wait analysis: one consumer is blocked
inside `tsqueue_pop` (`n_consumers_waiting = 1`) and no producer-side call
is pending when `tsqueue_close` runs. -/
def c1_state : Tsqueue Unit := ⟨1, 0, 1, [()], 0, 1, false, false⟩

/-- Environment for a `tsqueue_create` call whose `malloc` fails
(`errno = ENOMEM = 12`); the pthread init calls would all succeed. -/
def c3_env : CreateEnv := ⟨false, 12, 0, 0, 0, 0⟩

/-- Closed queue used as the C2 counterexample state. -/
def c2_closed_state : Tsqueue Unit := ⟨1, 0, 1, [()], 0, 0, false, true⟩

/-- Queue state used to instantiate `too_many_immediate`. -/
def c2_open_state : Tsqueue Unit := ⟨1, 0, 1, [()], 0, 0, false, false⟩

/-- Closing queue used to instantiate `closed_is_terminal`. -/
def c7_state : Tsqueue Unit := ⟨2, 1, 1, [(), ()], 0, 0, false, true⟩

/-- Queue state used to instantiate `set_done_idem_and_reversible`. -/
def c9_state : Tsqueue Unit := ⟨3, 1, 1, [(), (), ()], 0, 0, false, false⟩

/-- Fresh queue of capacity 5 over a backing store holding five copies of
`garbage`, as in the spec's partial-batch scenario. -/
def c4_q0 (garbage : α) : Tsqueue α :=
  ⟨5, 0, 1, List.replicate 5 garbage, 0, 0, false, false⟩

/-- Queue state used to instantiate `pop_after_done_takes_min`. -/
def c4_state : Tsqueue Unit := ⟨5, 2, 1, [(), (), (), (), ()], 0, 0, true, false⟩

/-- Fresh queue of capacity 4 over a backing store of four `garbage` slots,
as in the spec's destroy-leftover scenario. -/
def c8_q0 (garbage : α) : Tsqueue α :=
  ⟨4, 0, 1, List.replicate 4 garbage, 0, 0, false, false⟩

/-- Queue state used to instantiate `destroy_reports_leftover`. -/
def c8_state : Tsqueue Unit := ⟨4, 1, 1, [(), (), (), ()], 0, 0, false, false⟩

/-- Fully successful allocation environment for `tsqueue_create`. -/
def c10_env : CreateEnv := ⟨true, 0, 0, 0, 0, 0⟩

/-- Initial queue state for the capacity-invariant witness. -/
def c6_q0 : Tsqueue Unit := ⟨2, 1, 1, [(), ()], 0, 0, false, false⟩

/-- Operation sequence for the capacity-invariant witness. -/
def c6_ops : List (Op Unit) :=
  [.put 1 [()], .pop 1, .setDone true, .pop 2, .close]

/-- Final queue state reached by `c6_ops` from `c6_q0`. -/
def c6_qf : Tsqueue Unit := ⟨2, 0, 1, [(), ()], 0, 0, true, true⟩

theorem csub_eq_sub {a b : Nat} (h : b ≤ a) (ha : a < SIZE_T_MOD) :
    csub a b = a - b := by
  have hM : 0 < SIZE_T_MOD := by norm_num [SIZE_T_MOD]
  unfold csub
  have h1 : a + SIZE_T_MOD - b = (a - b) + SIZE_T_MOD := by omega
  rw [h1, Nat.add_mod_right, Nat.mod_eq_of_lt (by omega)]

theorem csub_overflow {a b : Nat} (h : a < b) (hb : b < SIZE_T_MOD) :
    csub a b = a + (SIZE_T_MOD - b) := by
  unfold csub
  have h1 : a + SIZE_T_MOD - b = a + (SIZE_T_MOD - b) := by omega
  rw [h1, Nat.mod_eq_of_lt (by omega)]

/-- On a live queue with no pending producer and enough free space,
`wait_for_space_internal` succeeds without waiting and without any net
state change. -/
theorem wfs_success (q : Tsqueue α) (n : Nat)
    (hdie : q.die = false) (hprod : q.producer_n_elems = 0)
    (hcap : q.capacity < SIZE_T_MOD) (hused : q.used ≤ q.capacity)
    (hfit : q.used + n ≤ q.capacity) :
    wait_for_space_internal q n = some (0, q) := by
  have hn : ¬ (n > q.capacity) := by omega
  have hc : ¬ (csub q.capacity q.used < n) := by
    rw [csub_eq_sub hused hcap]
    omega
  unfold wait_for_space_internal
  simp [hn, hdie, hprod, hc]

/-- On a live queue with no pending producer and enough free space,
`tsqueue_put` appends its input at offset `used` and succeeds. -/
theorem put_success (q : Tsqueue α) (items : List α)
    (hdie : q.die = false) (hprod : q.producer_n_elems = 0)
    (hcap : q.capacity < SIZE_T_MOD) (hused : q.used ≤ q.capacity)
    (hfit : q.used + items.length ≤ q.capacity) :
    tsqueue_put q items.length items =
      some (0, { q with data := writeAt q.data q.used items,
                        used := q.used + items.length }) := by
  unfold tsqueue_put
  rw [wfs_success q items.length hdie hprod hcap hused hfit]
  simp [List.take_length]

/-- Whenever the consumer wait-loop guard is false on entry — the queue is
live and either `producers_done` is set or `used ≥ n` — `tsqueue_pop`
returns immediately with `*n_elems = min used n`, the first `min used n`
elements copied out, and the remaining `used` slots moved to the front. -/
theorem pop_no_wait (q : Tsqueue α) (n : Nat)
    (hdie : q.die = false) (hn : n ≤ q.capacity)
    (h : q.producers_done = true ∨ n ≤ q.used) :
    tsqueue_pop q n =
      PopResult.ret 0 (min q.used n) (q.data.take (min q.used n))
        { q with
            used := q.used - min q.used n,
            data := (q.data.drop (min q.used n)).take (q.used - min q.used n)
                      ++ q.data.drop (q.used - min q.used n) } := by
  have hcapn : ¬ (n > q.capacity) := by omega
  have hmin : (if q.used < n then q.used else n) = min q.used n := by
    split <;> omega
  rcases h with h | h
  · unfold tsqueue_pop
    simp [hcapn, hdie, h, hmin]
  · have hlt : ¬ (q.used < n) := by omega
    have hminn : min q.used n = n := by omega
    unfold tsqueue_pop
    simp [hcapn, hdie, hlt, hmin, hminn, h]

/-- C1: refuted by the code. The drain loop at tsqueue.c line 176 waits
while `producer_n_elems != 0 && n_consumers_waiting != 0` — both counters
non-zero — so with no pending producer and one waiting consumer the guard is
false and `tsqueue_close` returns at once, while `n_consumers_waiting = 1`.
The claim (and the code's own documentation of `all_dead`, together with
`signal_if_all_dead`, which signals only when both counters are zero)
requires close to block until both counters are zero. -/
theorem close_returns_with_waiting_consumer :
    tsqueue_close c1_state = some { c1_state with die := true } ∧
    ({ c1_state with die := true } : Tsqueue Unit).n_consumers_waiting ≠ 0 := by
  decide

/-- C3: refuted by the code. Line 92 of tsqueue.c tests `queue == NULL` —
the out-parameter, which every caller passes as the address of a local and
is never NULL — instead of `*queue == NULL`. When `malloc` returns NULL,
`retval` therefore stays 0 and line 97 writes the initializer through the
NULL pointer instead of returning `errno`. -/
theorem create_null_deref_on_malloc_failure :
    tsqueue_create Unit c3_env false [] 4 8 0 = CreateResult.nullDeref := by
  decide

/-- C2 counterexample: on a closed queue, `wait_for_space(2)` with
`2 > capacity = 1` returns `TSQUEUE_CLOSED`, not `TSQUEUE_TOO_MANY`: the
`die` check at tsqueue.c line 335 overrides the earlier `TooMany` value. -/
theorem too_many_on_closed_queue_returns_closed :
    tsqueue_wait_for_space c2_closed_state 2 =
      some (TSQUEUE_CLOSED, c2_closed_state) ∧
    TSQUEUE_CLOSED ≠ TSQUEUE_TOO_MANY := by
  decide

/-- C2 (amended): for every queue state, `wait_for_space(n)` or
`put(n, items)` with `n > capacity` fails immediately — it never blocks and
never modifies the queue state — and the error is `TooMany`, except that a
pending producer-side call yields `SingleProducer` and a closing queue
yields `Closed` (those later checks override the `TooMany` value). -/
theorem too_many_immediate (q : Tsqueue α) (n : Nat) (items : List α)
    (h : n > q.capacity) :
    tsqueue_wait_for_space q n = some (overcap_error q, q) ∧
    tsqueue_put q n items = some (overcap_error q, q) ∧
    overcap_error q ≠ 0 := by
  have hretw : wait_for_space_internal q n = some (overcap_error q, q) := by
    unfold wait_for_space_internal overcap_error
    rw [if_pos h]
    split_ifs with h1 h2 h3 h4 h5 <;>
      simp_all [TSQUEUE_TOO_MANY, TSQUEUE_SINGLE_PRODUCER, TSQUEUE_CLOSED]
  have herr : overcap_error q ≠ 0 := by
    unfold overcap_error
    split_ifs <;> simp [TSQUEUE_TOO_MANY, TSQUEUE_SINGLE_PRODUCER, TSQUEUE_CLOSED]
  refine ⟨hretw, ?_, herr⟩
  unfold tsqueue_put
  rw [hretw]
  simp [herr]

/-- Witness for C2 (amended) at a concrete input: capacity 1, request 2. -/
theorem too_many_immediate_witness :
    (2 > c2_open_state.capacity) ∧
    (tsqueue_wait_for_space c2_open_state 2 =
       some (overcap_error c2_open_state, c2_open_state) ∧
     tsqueue_put c2_open_state 2 [] =
       some (overcap_error c2_open_state, c2_open_state) ∧
     overcap_error c2_open_state ≠ 0) :=
  ⟨by decide, too_many_immediate c2_open_state 2 [] (by decide)⟩

/-- C7: once `die` is set it is terminal. On a closing queue every
`tsqueue_pop` returns `TSQUEUE_CLOSED` with `*n_elems = 0`, copies nothing
out and leaves the state (in particular `used`) unchanged; every
`tsqueue_wait_for_space` and `tsqueue_put` returns `TSQUEUE_CLOSED` with the
state unchanged (nothing inserted); and no queue operation that completes
ever resets `die`. -/
theorem closed_is_terminal (q : Tsqueue α) (n m : Nat) (items : List α)
    (op : Op α) (q1 : Tsqueue α) (hdie : q.die = true) :
    tsqueue_pop q n = .ret TSQUEUE_CLOSED 0 [] q ∧
    tsqueue_wait_for_space q m = some (TSQUEUE_CLOSED, q) ∧
    tsqueue_put q m items = some (TSQUEUE_CLOSED, q) ∧
    (tsqStep q op = some q1 → q1.die = true) := by
  have hw : ∀ k, wait_for_space_internal q k = some (TSQUEUE_CLOSED, q) := by
    intro k
    unfold wait_for_space_internal
    simp [hdie]
  have hp : tsqueue_pop q n = .ret TSQUEUE_CLOSED 0 [] q := by
    unfold tsqueue_pop
    simp [hdie]
  have hput : ∀ k its, tsqueue_put q k its = some (TSQUEUE_CLOSED, q) := by
    intro k its
    unfold tsqueue_put
    rw [hw k]
    simp [TSQUEUE_CLOSED]
  refine ⟨hp, hw m, hput m items, ?_⟩
  intro hstep
  cases op with
  | put k its =>
    simp only [tsqStep, hput k its, Option.map_some] at hstep
    cases hstep
    exact hdie
  | pop k =>
    have hpk : tsqueue_pop q k = .ret TSQUEUE_CLOSED 0 [] q := by
      unfold tsqueue_pop
      simp [hdie]
    simp only [tsqStep, hpk] at hstep
    cases hstep
    exact hdie
  | setDone b =>
    simp only [tsqStep, tsqueue_set_done] at hstep
    cases hstep
    exact hdie
  | close =>
    simp only [tsqStep, tsqueue_close] at hstep
    split at hstep
    · exact absurd hstep (by simp)
    · cases hstep
      rfl
  | waitForSpace k =>
    simp only [tsqStep, hw k, Option.map_some] at hstep
    cases hstep
    exact hdie

/-- Witness for C7 at a concrete input. -/
theorem closed_is_terminal_witness :
    tsqueue_pop c7_state 1 = .ret TSQUEUE_CLOSED 0 [] c7_state ∧
    tsqueue_wait_for_space c7_state 1 = some (TSQUEUE_CLOSED, c7_state) ∧
    tsqueue_put c7_state 1 [()] = some (TSQUEUE_CLOSED, c7_state) ∧
    (tsqStep c7_state (Op.setDone false) = some (tsqueue_set_done c7_state false) →
      (tsqueue_set_done c7_state false).die = true) :=
  closed_is_terminal c7_state 1 1 [()] (Op.setDone false)
    (tsqueue_set_done c7_state false) (by decide)

/-- C9: `tsqueue_set_done` is idempotent — setting `producers_done` twice
leaves the same state as once — and reversible: after `set_done true` then
`set_done false`, a `tsqueue_pop` that asks for more elements than are
available (`used < n ≤ capacity`) on a live queue blocks again instead of
returning a partial batch. -/
theorem set_done_idem_and_reversible (q : Tsqueue α) (n : Nat)
    (hdie : q.die = false) (hn : n ≤ q.capacity) (hlt : q.used < n) :
    tsqueue_set_done (tsqueue_set_done q true) true = tsqueue_set_done q true ∧
    tsqueue_pop (tsqueue_set_done (tsqueue_set_done q true) false) n =
      PopResult.blocks := by
  constructor
  · rfl
  · have h1 : ¬(n > q.capacity) := by omega
    unfold tsqueue_pop tsqueue_set_done
    simp [h1, hdie, hlt]

/-- Witness for C9 at a concrete input: capacity 3, one element, request 2. -/
theorem set_done_idem_and_reversible_witness :
    tsqueue_set_done (tsqueue_set_done c9_state true) true =
      tsqueue_set_done c9_state true ∧
    tsqueue_pop (tsqueue_set_done (tsqueue_set_done c9_state true) false) 2 =
      PopResult.blocks :=
  set_done_idem_and_reversible c9_state 2 (by decide) (by decide) (by decide)

/-- C4: partial-batch policy. Once `producers_done` is set and the queue is
not closing, `tsqueue_pop n` (with `n ≤ capacity`) does not block and
returns 0 with `*n_elems = min used n`, copying out the first `min used n`
elements; in particular on a capacity-5 queue, after `put [a, b]` and
`set_done true`, `pop 5` returns `actual_n = 2` with `[a, b]` and a
subsequent `pop 1` returns `actual_n = 0`. -/
theorem pop_after_done_takes_min (q : Tsqueue α) (n : Nat)
    (hdone : q.producers_done = true) (hdie : q.die = false)
    (hn : n ≤ q.capacity) :
    tsqueue_pop q n =
      PopResult.ret 0 (min q.used n) (q.data.take (min q.used n))
        { q with
            used := q.used - min q.used n,
            data := (q.data.drop (min q.used n)).take (q.used - min q.used n)
                      ++ q.data.drop (q.used - min q.used n) } ∧
    (∀ a b garbage : α,
      ∃ q1 q2,
        tsqueue_put (c4_q0 garbage) 2 [a, b] = some (0, q1) ∧
        tsqueue_pop (tsqueue_set_done q1 true) 5 = PopResult.ret 0 2 [a, b] q2 ∧
        tsqueue_pop q2 1 = PopResult.ret 0 0 [] q2) := by
  refine ⟨pop_no_wait q n hdie hn (Or.inl hdone), ?_⟩
  intro a b garbage
  have h1 : tsqueue_put (c4_q0 garbage) 2 [a, b] =
      some (0, (⟨5, 2, 1, [a, b, garbage, garbage, garbage], 0, 0,
                  false, false⟩ : Tsqueue α)) := by
    have h := put_success (c4_q0 garbage) [a, b] rfl rfl
      (by norm_num [c4_q0, SIZE_T_MOD]) (by simp [c4_q0]) (by simp [c4_q0])
    simpa [c4_q0, writeAt] using h
  have h2 : tsqueue_pop (⟨5, 2, 1, [a, b, garbage, garbage, garbage], 0, 0,
                true, false⟩ : Tsqueue α) 5 =
      PopResult.ret 0 2 [a, b]
        (⟨5, 0, 1, [a, b, garbage, garbage, garbage], 0, 0,
          true, false⟩ : Tsqueue α) := by
    have h := pop_no_wait (⟨5, 2, 1, [a, b, garbage, garbage, garbage], 0, 0,
        true, false⟩ : Tsqueue α) 5 rfl (by norm_num) (Or.inl rfl)
    simpa using h
  have h3 : tsqueue_pop (⟨5, 0, 1, [a, b, garbage, garbage, garbage], 0, 0,
                true, false⟩ : Tsqueue α) 1 =
      PopResult.ret 0 0 []
        (⟨5, 0, 1, [a, b, garbage, garbage, garbage], 0, 0,
          true, false⟩ : Tsqueue α) := by
    have h := pop_no_wait (⟨5, 0, 1, [a, b, garbage, garbage, garbage], 0, 0,
        true, false⟩ : Tsqueue α) 1 rfl (by norm_num) (Or.inl rfl)
    simpa using h
  exact ⟨_, _, h1, by simpa [tsqueue_set_done] using h2, h3⟩

/-- Witness for C4 at a concrete input. -/
theorem pop_after_done_takes_min_witness :
    tsqueue_pop c4_state 5 =
      PopResult.ret 0 (min c4_state.used 5)
        (c4_state.data.take (min c4_state.used 5))
        { c4_state with
            used := c4_state.used - min c4_state.used 5,
            data := (c4_state.data.drop (min c4_state.used 5)).take
                        (c4_state.used - min c4_state.used 5)
                      ++ c4_state.data.drop (c4_state.used - min c4_state.used 5) } ∧
    (∀ a b garbage : Unit,
      ∃ q1 q2,
        tsqueue_put (c4_q0 garbage) 2 [a, b] = some (0, q1) ∧
        tsqueue_pop (tsqueue_set_done q1 true) 5 = PopResult.ret 0 2 [a, b] q2 ∧
        tsqueue_pop q2 1 = PopResult.ret 0 0 [] q2) :=
  pop_after_done_takes_min c4_state 5 (by decide) (by decide) (by decide)

/-- C8: when no thread is blocked inside the queue, `tsqueue_destroy`
completes and reports `used` — the number of leftover elements — leaving the
backing store in place with the first `used` slots holding the remaining
elements in pop order; in the concrete scenario (capacity 4, `put [x, y]`,
`pop 1`, `destroy`) it reports 1 leftover and the first slot of the backing
store holds `y`. -/
theorem destroy_reports_leftover (q : Tsqueue α) (x y garbage : α)
    (hp : q.producer_n_elems = 0) (hc : q.n_consumers_waiting = 0) :
    tsqueue_destroy q = some (q.used, q.data) ∧
    (∃ q1 q2,
      tsqueue_put (c8_q0 garbage) 2 [x, y] = some (0, q1) ∧
      tsqueue_pop q1 1 = PopResult.ret 0 1 [x] q2 ∧
      tsqueue_destroy q2 = some (1, q2.data) ∧
      q2.data.head? = some y ∧
      queueContents q2 = [y]) := by
  constructor
  · unfold tsqueue_destroy tsqueue_close close_wait_guard
    simp [hp, hc]
  · have h1 : tsqueue_put (c8_q0 garbage) 2 [x, y] =
        some (0, (⟨4, 2, 1, [x, y, garbage, garbage], 0, 0,
                    false, false⟩ : Tsqueue α)) := by
      have h := put_success (c8_q0 garbage) [x, y] rfl rfl
        (by norm_num [c8_q0, SIZE_T_MOD]) (by simp [c8_q0]) (by simp [c8_q0])
      simpa [c8_q0, writeAt] using h
    have h2 : tsqueue_pop (⟨4, 2, 1, [x, y, garbage, garbage], 0, 0,
                  false, false⟩ : Tsqueue α) 1 =
        PopResult.ret 0 1 [x]
          (⟨4, 1, 1, [y, y, garbage, garbage], 0, 0,
            false, false⟩ : Tsqueue α) := by
      have h := pop_no_wait (⟨4, 2, 1, [x, y, garbage, garbage], 0, 0,
          false, false⟩ : Tsqueue α) 1 rfl (by norm_num) (Or.inr (by norm_num))
      simpa using h
    have h3 : tsqueue_destroy (⟨4, 1, 1, [y, y, garbage, garbage], 0, 0,
                  false, false⟩ : Tsqueue α) =
        some (1, [y, y, garbage, garbage]) := by
      unfold tsqueue_destroy tsqueue_close close_wait_guard
      simp
    exact ⟨_, _, h1, h2, h3, rfl, rfl⟩

/-- Witness for C8 at a concrete input. -/
theorem destroy_reports_leftover_witness :
    tsqueue_destroy c8_state = some (c8_state.used, c8_state.data) ∧
    (∃ q1 q2,
      tsqueue_put (c8_q0 ()) 2 [(), ()] = some (0, q1) ∧
      tsqueue_pop q1 1 = PopResult.ret 0 1 [()] q2 ∧
      tsqueue_destroy q2 = some (1, q2.data) ∧
      q2.data.head? = some () ∧
      queueContents q2 = [()]) :=
  destroy_reports_leftover c8_state () () () (by decide) (by decide)

/-- C10: `tsqueue_create` performs no validation of the preload count. For
every `used` — including `used > capacity` — it returns 0 whenever
allocation succeeds, and the fresh state carries `used` as given; when
`used > capacity`, the `size_t` free-space computation `capacity - used`
performed by `wait_for_space_internal` (tsqueue.c line 328) wraps around to
a value exceeding the capacity, so for instance `wait_for_space(1)` reports
free space on a queue that has none. -/
theorem create_skips_preload_validation (α : Type) (cap es u : Nat)
    (data : List α) (env : CreateEnv)
    (hm : env.malloc_ok = true) (h1 : env.mutex_init = 0)
    (h2 : env.cond_producer_init = 0) (h3 : env.cond_consumer_init = 0)
    (h4 : env.cond_all_dead_init = 0) :
    ∃ q : Tsqueue α,
      tsqueue_create α env false data cap es u =
        CreateResult.ret 0 (some q) [1, 2, 3, 4] [] ∧
      q.used = u ∧ q.capacity = cap ∧
      (cap < u → u < SIZE_T_MOD →
        csub q.capacity q.used = cap + (SIZE_T_MOD - u) ∧
        q.capacity < csub q.capacity q.used ∧
        (1 ≤ cap → wait_for_space_internal q 1 = some (0, q))) := by
  refine ⟨⟨cap, u, es, data, 0, 0, false, false⟩, ?_, rfl, rfl, ?_⟩
  · unfold tsqueue_create
    simp [hm, h1, h2, h3, h4]
  · intro hcu hub
    have hov : csub cap u = cap + (SIZE_T_MOD - u) := csub_overflow hcu hub
    refine ⟨hov, ?_, ?_⟩
    · rw [show (⟨cap, u, es, data, 0, 0, false, false⟩ : Tsqueue α).capacity = cap from rfl,
          show (⟨cap, u, es, data, 0, 0, false, false⟩ : Tsqueue α).used = u from rfl, hov]
      omega
    · intro hc1
      have hguard : ¬ (csub cap u < 1) := by
        rw [hov]
        omega
      unfold wait_for_space_internal
      simp only
      simp [show ¬ (1 > cap) from by omega, hguard]

/-- Witness for C10 at a concrete input: capacity 1, preload count 2. -/
theorem create_skips_preload_validation_witness :
    ∃ q : Tsqueue Unit,
      tsqueue_create Unit c10_env false [()] 1 1 2 =
        CreateResult.ret 0 (some q) [1, 2, 3, 4] [] ∧
      q.used = 2 ∧ q.capacity = 1 ∧
      (1 < 2 → 2 < SIZE_T_MOD →
        csub q.capacity q.used = 1 + (SIZE_T_MOD - 2) ∧
        q.capacity < csub q.capacity q.used ∧
        (1 ≤ 1 → wait_for_space_internal q 1 = some (0, q))) :=
  create_skips_preload_validation Unit 1 1 2 [()] c10_env rfl rfl rfl rfl rfl

/-- Every completed `wait_for_space_internal` call leaves the state exactly
as it found it. -/
theorem wfs_some_state (q : Tsqueue α) (n : Nat) (r : Int) (q1 : Tsqueue α)
    (h : wait_for_space_internal q n = some (r, q1)) : q1 = q := by
  unfold wait_for_space_internal at h
  simp only [TSQUEUE_CLOSED, TSQUEUE_TOO_MANY, TSQUEUE_SINGLE_PRODUCER] at h
  split_ifs at h <;> simp_all

/-- A `wait_for_space_internal` call that returns 0 saw a live queue with
enough free space (as computed by the `size_t` subtraction). -/
theorem wfs_success_conditions (q : Tsqueue α) (n : Nat) (q1 : Tsqueue α)
    (h : wait_for_space_internal q n = some (0, q1)) :
    q.die = false ∧ ¬ (csub q.capacity q.used < n) := by
  unfold wait_for_space_internal at h
  simp only [TSQUEUE_CLOSED, TSQUEUE_TOO_MANY, TSQUEUE_SINGLE_PRODUCER] at h
  split_ifs at h <;> simp_all

/-- A completed `tsqueue_pop` never increases `used` and never changes
`capacity` or `elem_size`. -/
theorem pop_state_fields (q : Tsqueue α) (n : Nat) (r : Int) (m : Nat)
    (out : List α) (q1 : Tsqueue α)
    (h : tsqueue_pop q n = PopResult.ret r m out q1) :
    q1.used ≤ q.used ∧ q1.capacity = q.capacity ∧ q1.elem_size = q.elem_size := by
  by_cases hdie : q.die = true
  · have hpop : tsqueue_pop q n = PopResult.ret TSQUEUE_CLOSED 0 [] q := by
      unfold tsqueue_pop
      simp [hdie]
    rw [hpop] at h
    simp only [PopResult.ret.injEq] at h
    obtain ⟨h1, h2, h3, h4⟩ := h
    subst h4
    exact ⟨le_refl q.used, rfl, rfl⟩
  · have hdie1 : q.die = false := by simpa using hdie
    by_cases hcap : n > q.capacity
    · have hpop : tsqueue_pop q n = PopResult.ret TSQUEUE_TOO_MANY n [] q := by
        unfold tsqueue_pop
        simp [hdie1, hcap, TSQUEUE_TOO_MANY]
      rw [hpop] at h
      simp only [PopResult.ret.injEq] at h
      obtain ⟨h1, h2, h3, h4⟩ := h
      subst h4
      exact ⟨le_refl q.used, rfl, rfl⟩
    · have hle : n ≤ q.capacity := by omega
      by_cases hwait : q.producers_done = false ∧ q.used < n
      · have hpop : tsqueue_pop q n = PopResult.blocks := by
          unfold tsqueue_pop
          simp [hdie1, hcap, hwait.1, hwait.2]
        rw [hpop] at h
        exact PopResult.noConfusion h
      · have hcond : q.producers_done = true ∨ n ≤ q.used := by
          by_cases hb : q.producers_done = true
          · exact Or.inl hb
          · right
            have hbf : q.producers_done = false := by simpa using hb
            rcases not_and_or.mp hwait with hx | hx
            · exact absurd hbf hx
            · omega
        rw [pop_no_wait q n hdie1 hle hcond] at h
        simp only [PopResult.ret.injEq] at h
        obtain ⟨h1, h2, h3, h4⟩ := h
        subst h4
        refine ⟨?_, rfl, rfl⟩
        show q.used - min q.used n ≤ q.used
        omega

/-- Rewriting `tsqueue_put` once the result of its internal
`wait_for_space_internal` call is known. -/
theorem tsqueue_put_eq (q : Tsqueue α) (n : Nat) (items : List α)
    (r1 : Int) (qw : Tsqueue α)
    (hw : wait_for_space_internal q n = some (r1, qw)) :
    tsqueue_put q n items =
      if r1 = 0 then
        some (0, { qw with data := writeAt qw.data qw.used (items.take n),
                           used := qw.used + n })
      else some (r1, qw) := by
  unfold tsqueue_put
  rw [hw]

/-- A completed `tsqueue_put` either leaves the state unchanged (error
case) or — having seen free space — appends and grows `used` within the
free space bound. -/
theorem put_state_fields (q : Tsqueue α) (n : Nat) (items : List α)
    (r : Int) (q1 : Tsqueue α)
    (h : tsqueue_put q n items = some (r, q1)) :
    q1 = q ∨
    (q.die = false ∧ ¬ (csub q.capacity q.used < n) ∧
     q1 = { q with data := writeAt q.data q.used (items.take n),
                   used := q.used + n }) := by
  cases hw : wait_for_space_internal q n with
  | none =>
    unfold tsqueue_put at h
    rw [hw] at h
    exact Option.noConfusion h
  | some p =>
    obtain ⟨rw1, qw⟩ := p
    have hq : qw = q := wfs_some_state q n rw1 qw hw
    subst hq
    rw [tsqueue_put_eq qw n items rw1 qw hw] at h
    split at h
    · rename_i hr
      subst hr
      obtain ⟨hdie, hspace⟩ := wfs_success_conditions qw n qw hw
      simp only [Option.some_inj, Prod.mk.injEq] at h
      exact Or.inr ⟨hdie, hspace, h.2.symm⟩
    · simp only [Option.some_inj, Prod.mk.injEq] at h
      exact Or.inl h.2.symm

/-- One completed queue operation preserves `0 ≤ used ≤ capacity` and never
changes `capacity` or `elem_size`. -/
theorem tsqStep_preserves (q : Tsqueue α) (op : Op α) (q1 : Tsqueue α)
    (hcap : q.capacity < SIZE_T_MOD) (hinv : q.used ≤ q.capacity)
    (hstep : tsqStep q op = some q1) :
    q1.used ≤ q1.capacity ∧ q1.capacity = q.capacity ∧
    q1.elem_size = q.elem_size := by
  cases op with
  | put n items =>
    simp only [tsqStep] at hstep
    cases hp : tsqueue_put q n items with
    | none => rw [hp] at hstep; cases hstep
    | some p =>
      obtain ⟨r, qp⟩ := p
      rw [hp] at hstep
      simp at hstep
      rcases put_state_fields q n items r qp hp with h | ⟨_, hspace, h⟩
      · rw [← hstep, h]
        exact ⟨hinv, rfl, rfl⟩
      · have hcs : csub q.capacity q.used = q.capacity - q.used :=
          csub_eq_sub hinv hcap
        rw [hcs] at hspace
        rw [← hstep, h]
        refine ⟨?_, rfl, rfl⟩
        show q.used + n ≤ q.capacity
        omega
  | pop n =>
    simp only [tsqStep] at hstep
    cases hp : tsqueue_pop q n with
    | blocks => rw [hp] at hstep; cases hstep
    | ret r m out qp =>
      rw [hp] at hstep
      simp at hstep
      obtain ⟨h1, h2, h3⟩ := pop_state_fields q n r m out qp hp
      rw [← hstep]
      exact ⟨by omega, h2, h3⟩
  | setDone b =>
    simp only [tsqStep] at hstep
    simp at hstep
    rw [← hstep]
    exact ⟨hinv, rfl, rfl⟩
  | close =>
    simp only [tsqStep, tsqueue_close] at hstep
    split at hstep
    · cases hstep
    · simp only [Option.some_inj] at hstep
      rw [← hstep]
      exact ⟨hinv, rfl, rfl⟩
  | waitForSpace n =>
    simp only [tsqStep] at hstep
    cases hw : wait_for_space_internal q n with
    | none => rw [hw] at hstep; cases hstep
    | some p =>
      obtain ⟨r, qw⟩ := p
      rw [hw] at hstep
      simp at hstep
      have hqw : qw = q := wfs_some_state q n r qw hw
      rw [← hstep, hqw]
      exact ⟨hinv, rfl, rfl⟩

/-- C6: capacity invariant. For every queue state with `used ≤ capacity`
(as guaranteed when `create` is called with `preloaded_count ≤ capacity`)
and `capacity` representable in `size_t`, every sequence of completed queue
operations preserves `used ≤ capacity` (with `used : Nat`, `0 ≤ used` holds
throughout), and the `capacity` and `elem_size` fields are never
modified. -/
theorem capacity_invariant (q0 : Tsqueue α) (ops : List (Op α))
    (q : Tsqueue α) (hcap : q0.capacity < SIZE_T_MOD)
    (hpre : q0.used ≤ q0.capacity) (hrun : runOps q0 ops = some q) :
    q.used ≤ q.capacity ∧ q.capacity = q0.capacity ∧
    q.elem_size = q0.elem_size := by
  induction ops generalizing q0 with
  | nil =>
    simp only [runOps, Option.some_inj] at hrun
    subst hrun
    exact ⟨hpre, rfl, rfl⟩
  | cons op ops ih =>
    simp only [runOps] at hrun
    cases hs : tsqStep q0 op with
    | none => rw [hs] at hrun; cases hrun
    | some qm =>
      rw [hs] at hrun
      obtain ⟨h1, h2, h3⟩ := tsqStep_preserves q0 op qm hcap hpre hs
      obtain ⟨g1, g2, g3⟩ := ih qm (by omega) h1 hrun
      exact ⟨g1, by omega, by rw [g3, h3]⟩

/-- Witness for C6 at a concrete input. -/
theorem capacity_invariant_witness :
    c6_qf.used ≤ c6_qf.capacity ∧ c6_qf.capacity = c6_q0.capacity ∧
    c6_qf.elem_size = c6_q0.elem_size :=
  capacity_invariant c6_q0 c6_ops c6_qf (by norm_num [c6_q0, SIZE_T_MOD])
    (by decide) (by decide)

/-- Lemma: `memcpy` at offset `off` preserves the backing-store length when it
stays in bounds. -/
theorem writeAt_length (l : List α) (off : Nat) (xs : List α)
    (h : off + xs.length ≤ l.length) :
    (writeAt l off xs).length = l.length := by
  unfold writeAt
  simp only [List.length_append, List.length_take, List.length_drop]
  omega

/-- After `memcpy` of `xs` at offset `off`, the first `off + |xs|` slots are
the old first `off` slots followed by `xs`. -/
theorem writeAt_take (l : List α) (off : Nat) (xs : List α)
    (hoff : off ≤ l.length) :
    (writeAt l off xs).take (off + xs.length) = l.take off ++ xs := by
  have hA : (l.take off ++ xs).length = off + xs.length := by
    rw [List.length_append, List.length_take]
    omega
  unfold writeAt
  rw [List.take_append_eq_append_take, List.take_of_length_le (le_of_eq hA), hA,
      Nat.sub_self, List.take_zero, List.append_nil]

/-- The valid region that `tsqueue_pop`'s `memmove` leaves behind is the old
valid region with its first `nm` elements removed. -/
theorem pop_data_take (l : List α) (m nm : Nat)
    (hnm : nm ≤ m) (hm : m ≤ l.length) :
    ((l.drop nm).take (m - nm) ++ l.drop (m - nm)).take (m - nm) =
      (l.take m).drop nm := by
  have h1 : ((l.drop nm).take (m - nm)).length = m - nm := by
    rw [List.length_take, List.length_drop]
    omega
  rw [List.take_append_eq_append_take, List.take_of_length_le (le_of_eq h1), h1,
      Nat.sub_self, List.take_zero, List.append_nil, List.drop_take]

/-- Lemma: `tsqueue_pop` has a `memmove` that preserves the backing-store length. -/
theorem pop_data_length (l : List α) (m nm : Nat)
    (hnm : nm ≤ m) (hm : m ≤ l.length) :
    ((l.drop nm).take (m - nm) ++ l.drop (m - nm)).length = l.length := by
  simp only [List.length_append, List.length_take, List.length_drop]
  omega

/-- Taking a prefix of a prefix. -/
theorem take_take_of_le (l : List α) (m nm : Nat) (h : nm ≤ m) :
    (l.take m).take nm = l.take nm := by
  rw [List.take_take, Nat.min_eq_left h]

/-- A run of `tsqueue_put` calls whose batches fit in the free space all
succeed, appending the concatenated batches to the valid region. -/
theorem runPuts_ok (batches : List (List α)) :
    ∀ q : Tsqueue α, q.die = false → q.producer_n_elems = 0 →
      q.capacity < SIZE_T_MOD → q.used ≤ q.capacity →
      q.data.length = q.capacity →
      q.used + (batches.map List.length).sum ≤ q.capacity →
      ∃ q1, runPuts q batches = some q1 ∧
        queueContents q1 = queueContents q ++ batches.flatten ∧
        q1.used = q.used + (batches.map List.length).sum ∧
        q1.die = false ∧ q1.producer_n_elems = 0 ∧
        q1.producers_done = q.producers_done ∧
        q1.capacity = q.capacity ∧ q1.elem_size = q.elem_size ∧
        q1.data.length = q.data.length := by
  induction batches with
  | nil =>
    intro q hdie hprod hcap hused hlen hsum
    exact ⟨q, rfl, by simp, by simp, hdie, hprod, rfl, rfl, rfl, rfl⟩
  | cons b bs ih =>
    intro q hdie hprod hcap hused hlen hsum
    have hsum1 : q.used + b.length + (bs.map List.length).sum ≤ q.capacity := by
      simp only [List.map_cons, List.sum_cons] at hsum
      omega
    have hput := put_success q b hdie hprod hcap hused (by omega)
    have hmlen : (writeAt q.data q.used b).length = q.data.length :=
      writeAt_length q.data q.used b (by omega)
    have hmcont : (writeAt q.data q.used b).take (q.used + b.length) =
        q.data.take q.used ++ b :=
      writeAt_take q.data q.used b (by omega)
    obtain ⟨q1, hrun, hcont, hused1, hdie1, hprod1, hpd1, hcap1, hes1, hlen1⟩ :=
      ih { q with data := writeAt q.data q.used b, used := q.used + b.length }
        hdie hprod hcap
        (by show q.used + b.length ≤ q.capacity; omega)
        (by show (writeAt q.data q.used b).length = q.capacity
            rw [hmlen, hlen])
        (by show q.used + b.length + (bs.map List.length).sum ≤ q.capacity
            omega)
    refine ⟨q1, ?_, ?_, ?_, hdie1, hprod1, hpd1, hcap1, hes1, ?_⟩
    · simp only [runPuts, hput, hrun]
      simp
    · rw [hcont]
      have hqc : queueContents { q with data := writeAt q.data q.used b,
                                        used := q.used + b.length } =
          queueContents q ++ b := hmcont
      rw [hqc, List.flatten_cons, List.append_assoc]
    · rw [hused1]
      have hqu : ({ q with data := writeAt q.data q.used b,
                           used := q.used + b.length } : Tsqueue α).used =
          q.used + b.length := rfl
      rw [hqu]
      simp only [List.map_cons, List.sum_cons]
      omega
    · rw [hlen1]
      exact hmlen

/-- A run of `tsqueue_pop` calls on a live queue with `producers_done` set
all succeed, and the batches they observe drain the valid region from the
front, in order. -/
theorem runPops_ok (reqs : List Nat) :
    ∀ q : Tsqueue α, q.die = false → q.producers_done = true →
      (∀ n ∈ reqs, n ≤ q.capacity) → q.used ≤ q.data.length →
      ∃ outs qf,
        runPops q reqs = some (outs, qf) ∧
        outs.flatten ++ queueContents qf = queueContents q ∧
        qf.die = false ∧ qf.producers_done = true ∧
        qf.capacity = q.capacity ∧ qf.elem_size = q.elem_size ∧
        qf.data.length = q.data.length := by
  induction reqs with
  | nil =>
    intro q hdie hdone _ _
    exact ⟨[], q, rfl, by simp, hdie, hdone, rfl, rfl, rfl⟩
  | cons n ns ih =>
    intro q hdie hdone hreq hlen
    have hn : n ≤ q.capacity := hreq n (by simp)
    have hmle : min q.used n ≤ q.used := Nat.min_le_left _ _
    obtain ⟨outs, qf, hrun, hflat, hd1, hd2, hd3, hd4, hd5⟩ :=
      ih { q with used := q.used - min q.used n,
                  data := (q.data.drop (min q.used n)).take
                            (q.used - min q.used n) ++
                          q.data.drop (q.used - min q.used n) }
        hdie hdone
        (fun k hk => hreq k (List.mem_cons_of_mem n hk))
        (by show q.used - min q.used n ≤
              ((q.data.drop (min q.used n)).take (q.used - min q.used n) ++
                q.data.drop (q.used - min q.used n)).length
            rw [pop_data_length q.data q.used (min q.used n) hmle hlen]
            omega)
    refine ⟨q.data.take (min q.used n) :: outs, qf, ?_, ?_, hd1, hd2, hd3, hd4, ?_⟩
    · simp only [runPops, pop_no_wait q n hdie hn (Or.inl hdone), hrun]
      simp
    · rw [List.flatten_cons, List.append_assoc, hflat]
      have hc1 : queueContents
          { q with used := q.used - min q.used n,
                   data := (q.data.drop (min q.used n)).take
                             (q.used - min q.used n) ++
                           q.data.drop (q.used - min q.used n) } =
          (queueContents q).drop (min q.used n) :=
        pop_data_take q.data q.used (min q.used n) hmle hlen
      have hc2 : q.data.take (min q.used n) =
          (queueContents q).take (min q.used n) :=
        (take_take_of_le q.data q.used (min q.used n) hmle).symm
      rw [hc1, hc2, List.take_append_drop]
    · rw [hd5]
      exact pop_data_length q.data q.used (min q.used n) hmle hlen

/-- C5: FIFO order. Starting from an empty queue over a backing store of
`capacity` slots, for every sequence of `put` batches that fits in the
capacity (so every `put` succeeds) followed by any sequence of `pop`
requests (each at most `capacity`, issued after `set_done true` so none
blocks), the batches observed by the pops, concatenated, followed by the
elements still in the queue, are exactly the concatenation of the inserted
batches — elements come out in insertion order however the batch sizes are
split, and each `put` appends after all currently-valid elements. -/
theorem fifo_order (cap es : Nat) (store : List α)
    (batches : List (List α)) (reqs : List Nat)
    (hlen : store.length = cap) (hcap : cap < SIZE_T_MOD)
    (hsum : (batches.map List.length).sum ≤ cap)
    (hreq : ∀ n ∈ reqs, n ≤ cap) :
    ∃ q1 outs qf,
      runPuts (⟨cap, 0, es, store, 0, 0, false, false⟩ : Tsqueue α) batches =
        some q1 ∧
      queueContents q1 = batches.flatten ∧
      runPops (tsqueue_set_done q1 true) reqs = some (outs, qf) ∧
      outs.flatten ++ queueContents qf = batches.flatten := by
  obtain ⟨q1, hrun, hcont, hused1, hdie1, hprod1, hpd1, hcap1, hes1, hlen1⟩ :=
    runPuts_ok batches (⟨cap, 0, es, store, 0, 0, false, false⟩ : Tsqueue α)
      rfl rfl hcap (by simp) hlen (by simpa using hsum)
  have hcont1 : queueContents q1 = batches.flatten := by
    simpa [queueContents] using hcont
  obtain ⟨outs, qf, hrunp, hflat, g1, g2, g3, g4, g5⟩ :=
    runPops_ok reqs (tsqueue_set_done q1 true) hdie1 rfl
      (by intro k hk
          show k ≤ q1.capacity
          rw [hcap1]
          exact hreq k hk)
      (by show q1.used ≤ q1.data.length
          rw [hused1, hlen1]
          show 0 + (batches.map List.length).sum ≤ store.length
          omega)
  refine ⟨q1, outs, qf, hrun, hcont1, hrunp, ?_⟩
  have hsd : queueContents (tsqueue_set_done q1 true) = queueContents q1 := rfl
  rw [hsd, hcont1] at hflat
  exact hflat

/-- Witness for C5 at a concrete input: capacity 3, one `put [1, 2, 3]`,
then `pop 1` and `pop 2` — the spec's example split. -/
theorem fifo_order_witness :
    ∃ q1 outs qf,
      runPuts (⟨3, 0, 1, [0, 0, 0], 0, 0, false, false⟩ : Tsqueue Nat)
        [[1, 2, 3]] = some q1 ∧
      queueContents q1 = [[1, 2, 3]].flatten ∧
      runPops (tsqueue_set_done q1 true) [1, 2] = some (outs, qf) ∧
      outs.flatten ++ queueContents qf = [[1, 2, 3]].flatten :=
  fifo_order 3 1 [0, 0, 0] [[1, 2, 3]] [1, 2] rfl (by norm_num [SIZE_T_MOD])
    (by decide) (by decide)
